import Mathlib

/-!
Verification development for the fun-audio-chat-ui streaming client
(src/app/page.tsx).  The stream decoder, the event normalizer, the
message-store fold operations, the audio-URL resolver and the silence
detector are embedded as executable Lean definitions, translated from
the TypeScript source.  Chunks and lines are modelled at the decoded
text level (the browser TextDecoder reassembles UTF-8 across chunk
boundaries, so a transport chunk is a list of characters here).  Fields
that the source types as `string` are modelled at `String`; runtime
values of other JSON types in those fields are outside the embedding.
-/

namespace FunAudio

/-- Model of a JavaScript JSON value as produced by JSON.parse.
Numbers keep their source lexeme; no claim depends on numeric value. -/
inductive Json where
  | null : Json
  | bool (b : Bool) : Json
  | num (lexeme : String) : Json
  | str (s : String) : Json
  | arr (items : List Json) : Json
  | obj (fields : List (String × Json)) : Json

/-- JSON whitespace characters accepted by JSON.parse between tokens. -/
def jsonWsChar (c : Char) : Bool :=
  c = ' ' || c = '\t' || c = '\n' || c = '\r'

def skipWs (l : List Char) : List Char := l.dropWhile jsonWsChar

def hexVal (c : Char) : Option Nat :=
  if '0' ≤ c ∧ c ≤ '9' then some (c.toNat - 48)
  else if 'a' ≤ c ∧ c ≤ 'f' then some (c.toNat - 87)
  else if 'A' ≤ c ∧ c ≤ 'F' then some (c.toNat - 55)
  else none

/-- Single-character JSON string escapes. -/
def escMap (e : Char) : Option Char :=
  if e = '"' then some '"'
  else if e = '\\' then some '\\'
  else if e = '/' then some '/'
  else if e = 'b' then some '\x08'
  else if e = 'f' then some '\x0c'
  else if e = 'n' then some '\n'
  else if e = 'r' then some '\r'
  else if e = 't' then some '\t'
  else none

/-- Body of a JSON string after the opening quote, fuel-bounded (each
step consumes at least one character, so fuel = length + 1 suffices).
A surrogate pair of \u escapes is combined into one code point; a lone
surrogate (representable in JS strings, not in Lean `Char`) becomes
U+FFFD. -/
def strBody (fuel : Nat) (l : List Char) : Option (List Char × List Char) :=
  match fuel, l with
  | 0, _ => none
  | _, [] => none
  | fuel' + 1, c :: rest =>
    if c = '"' then some ([], rest)
    else if c = '\\' then
      match rest with
      | [] => none
      | e :: rest2 =>
        if e = 'u' then
          match rest2 with
          | h1 :: h2 :: h3 :: h4 :: rest3 =>
            match hexVal h1, hexVal h2, hexVal h3, hexVal h4 with
            | some a, some b, some c2, some d =>
              let code := a * 4096 + b * 256 + c2 * 16 + d
              if 0xD800 ≤ code ∧ code ≤ 0xDBFF then
                match rest3 with
                | '\\' :: 'u' :: g1 :: g2 :: g3 :: g4 :: rest4 =>
                  match hexVal g1, hexVal g2, hexVal g3, hexVal g4 with
                  | some a2, some b2, some c3, some d2 =>
                    let lo := a2 * 4096 + b2 * 256 + c3 * 16 + d2
                    if 0xDC00 ≤ lo ∧ lo ≤ 0xDFFF then
                      let combined := 0x10000 + (code - 0xD800) * 1024 + (lo - 0xDC00)
                      match strBody fuel' rest4 with
                      | some (cs, r) => some (Char.ofNat combined :: cs, r)
                      | none => none
                    else
                      match strBody fuel' rest3 with
                      | some (cs, r) => some ('�' :: cs, r)
                      | none => none
                  | _, _, _, _ => none
                | _ =>
                  match strBody fuel' rest3 with
                  | some (cs, r) => some ('�' :: cs, r)
                  | none => none
              else if 0xDC00 ≤ code ∧ code ≤ 0xDFFF then
                match strBody fuel' rest3 with
                | some (cs, r) => some ('�' :: cs, r)
                | none => none
              else
                match strBody fuel' rest3 with
                | some (cs, r) => some (Char.ofNat code :: cs, r)
                | none => none
            | _, _, _, _ => none
          | _ => none
        else
          match escMap e with
          | some ec =>
            match strBody fuel' rest2 with
            | some (cs, r) => some (ec :: cs, r)
            | none => none
          | none => none
    else if c.toNat < 0x20 then none
    else
      match strBody fuel' rest with
      | some (cs, r) => some (c :: cs, r)
      | none => none

/-- Exponent part of a JSON number lexeme (optional). -/
def numExp (acc : List Char) (l : List Char) : Option (List Char × List Char) :=
  match l with
  | c :: r =>
    if c = 'e' ∨ c = 'E' then
      let (sgn, r1) :=
        match r with
        | s :: r' => if s = '+' ∨ s = '-' then ([s], r') else ([], r)
        | [] => ([], r)
      let ds := r1.takeWhile Char.isDigit
      let r2 := r1.dropWhile Char.isDigit
      if ds = [] then none else some (acc ++ c :: (sgn ++ ds), r2)
    else some (acc, l)
  | [] => some (acc, [])

/-- Fraction part of a JSON number lexeme (optional), then exponent. -/
def numFrac (acc : List Char) (l : List Char) : Option (List Char × List Char) :=
  match l with
  | '.' :: r =>
    let ds := r.takeWhile Char.isDigit
    let r2 := r.dropWhile Char.isDigit
    if ds = [] then none else numExp (acc ++ '.' :: ds) r2
  | _ => numExp acc l

/-- Lex a JSON number; grammar -?(0|[1-9][0-9]*)(.[0-9]+)?([eE][+-]?[0-9]+)?. -/
def numLex (l : List Char) : Option (List Char × List Char) :=
  let (neg, l1) := match l with | '-' :: r => (['-'], r) | _ => ([], l)
  match l1 with
  | [] => none
  | c :: r =>
    if c = '0' then numFrac (neg ++ ['0']) r
    else if c.isDigit then
      let ds := r.takeWhile Char.isDigit
      let r2 := r.dropWhile Char.isDigit
      numFrac (neg ++ c :: ds) r2
    else none

mutual

/-- Recursive-descent JSON value, mirroring JSON.parse.  Fuel-bounded;
`parseJson` supplies fuel ample for any input of its length. -/
def parseVal : Nat → List Char → Option (Json × List Char)
  | 0, _ => none
  | fuel + 1, l =>
    match skipWs l with
    | [] => none
    | c :: rest =>
      if c = '"' then
        match strBody (rest.length + 1) rest with
        | some (cs, r) => some (.str (String.mk cs), r)
        | none => none
      else if c = '\x7b' then parseObjRest fuel rest []
      else if c = '[' then parseArrRest fuel rest []
      else if c = 't' then
        if "rue".data.isPrefixOf rest then some (.bool true, rest.drop 3) else none
      else if c = 'f' then
        if "alse".data.isPrefixOf rest then some (.bool false, rest.drop 4) else none
      else if c = 'n' then
        if "ull".data.isPrefixOf rest then some (.null, rest.drop 3) else none
      else
        match numLex (c :: rest) with
        | some (tok, r) => some (.num (String.mk tok), r)
        | none => none

/-- Array items after the opening bracket (empty-array case), then loop. -/
def parseArrRest : Nat → List Char → List Json → Option (Json × List Char)
  | 0, _, _ => none
  | fuel + 1, l, acc =>
    match skipWs l with
    | ']' :: r => if acc.isEmpty then some (.arr [], r) else none
    | _ => parseArrLoop fuel l acc

/-- One array element, then a comma or the closing bracket. -/
def parseArrLoop : Nat → List Char → List Json → Option (Json × List Char)
  | 0, _, _ => none
  | fuel + 1, l, acc =>
    match parseVal fuel l with
    | some (v, r) =>
      (match skipWs r with
       | ',' :: r2 => parseArrLoop fuel r2 (acc ++ [v])
       | ']' :: r2 => some (.arr (acc ++ [v]), r2)
       | _ => none)
    | none => none

/-- Object members after the opening brace (empty-object case), then loop. -/
def parseObjRest : Nat → List Char → List (String × Json) → Option (Json × List Char)
  | 0, _, _ => none
  | fuel + 1, l, acc =>
    match skipWs l with
    | '\x7d' :: r => if acc.isEmpty then some (.obj [], r) else none
    | _ => parseObjLoop fuel l acc

/-- One key/value member, then a comma or the closing brace. -/
def parseObjLoop : Nat → List Char → List (String × Json) → Option (Json × List Char)
  | 0, _, _ => none
  | fuel + 1, l, acc =>
    match skipWs l with
    | '"' :: restKey =>
      (match strBody (restKey.length + 1) restKey with
       | some (k, r1) =>
         (match skipWs r1 with
          | ':' :: r2 =>
            (match parseVal fuel r2 with
             | some (v, r3) =>
               (match skipWs r3 with
                | ',' :: r4 => parseObjLoop fuel r4 (acc ++ [(String.mk k, v)])
                | '\x7d' :: r4 => some (.obj (acc ++ [(String.mk k, v)]), r4)
                | _ => none)
             | none => none)
          | _ => none)
       | none => none)
    | _ => none

end

/-- Model of JSON.parse on one payload: parse a value and require only
whitespace to remain. -/
def parseJson (l : List Char) : Option Json :=
  match parseVal (4 * l.length + 16) l with
  | some (j, rest) => if skipWs rest = [] then some j else none
  | none => none

/-- Object field lookup with JSON.parse duplicate-key semantics: the
last occurrence of a key wins.  Lookup on a non-object value (or an
absent key) is `none`, modelling JS `undefined`. -/
def lookupLast (k : String) : List (String × Json) → Option Json
  | [] => none
  | (k', v) :: rest =>
    match lookupLast k rest with
    | some r => some r
    | none => if k' = k then some v else none

def Json.getField : Json → String → Option Json
  | .obj fs, k => lookupLast k fs
  | _, _ => none

/-- Field access expecting a string value (the type every scalar field
of the source StreamEvent interface declares). -/
def Json.getStr (j : Json) (k : String) : Option String :=
  match j.getField k with
  | some (.str s) => some s
  | _ => none

/-- Whether a JSON number lexeme denotes zero: its mantissa holds no
digit 1-9 (covers 0, -0, 0.00, 0e9, ...). -/
def numIsZero (s : String) : Bool :=
  (s.data.takeWhile (fun c => c ≠ 'e' ∧ c ≠ 'E')).all
    (fun c => ¬('1' ≤ c ∧ c ≤ '9'))

/-- JavaScript truthiness of a JSON value. -/
def Json.truthy : Json → Bool
  | .null => false
  | .bool b => b
  | .num s => !numIsZero s
  | .str s => s ≠ ""
  | .arr _ => true
  | .obj _ => true

/-- JS truthiness of an optional string (absent or empty is falsy),
returning the string when truthy. -/
def truthyStr : Option String → Option String
  | some s => if s = "" then none else some s
  | none => none

/-- JS chain a || b || c over optional strings: first truthy wins. -/
def firstTruthy : List (Option String) → Option String
  | [] => none
  | o :: os =>
    match truthyStr o with
    | some s => some s
    | none => firstTruthy os

/-- JS `a || d` for a string-typed expression a with string default d. -/
def jsOrStr : Option String → String → String
  | some s, d => if s = "" then d else s
  | none, d => d

/-- Truthiness of the optional correlation id (`if (toolCall.id)`). -/
def strTruthy : Option String → Bool
  | some s => s ≠ ""
  | none => false

/-! ## Data model (interfaces Message and ToolCall of page.tsx) -/

inductive Role where
  | user : Role
  | assistant : Role
deriving DecidableEq, Repr

structure ToolCall where
  id : Option String
  name : String
  arguments : String
deriving DecidableEq, Repr

structure Message where
  id : String
  role : Role
  content : String
  audioUrl : Option String
  toolCalls : Option (List ToolCall)
  timestamp : Nat
deriving DecidableEq, Repr

/-! ## URL resolution and fold operations on the message store -/

/-- JS whitespace trimmed by String.trim (common code points). -/
def jsWs (c : Char) : Bool :=
  c = ' ' || c = '\t' || c = '\n' || c = '\r' || c = '\x0b' || c = '\x0c' ||
  c = ' ' || c = '﻿'

def trimChars (l : List Char) : List Char :=
  ((l.dropWhile jsWs).reverse.dropWhile jsWs).reverse

/-- serverUrl.replace(/\/$/, ''): drop one trailing slash if present. -/
def stripTrail (l : List Char) : List Char :=
  if l.getLast? = some '/' then l.dropLast else l

def resolveChars (server url : List Char) : List Char :=
  if "http://".data.isPrefixOf url || "https://".data.isPrefixOf url then url
  else stripTrail server ++ (if "/".data.isPrefixOf url then [] else "/".data) ++ url

/-- resolveAudioUrl of page.tsx: absolute references pass through, a
relative reference is joined to the configured server URL. -/
def resolveAudioUrl (serverUrl url : String) : String :=
  String.mk (resolveChars serverUrl.data url.data)

/-- Per-message body of the appendAssistantDelta updater. -/
def appendDeltaMsg (messageId : String) (delta : String) (msg : Message) : Message :=
  if msg.id = messageId then { msg with content := msg.content ++ delta } else msg

/-- appendAssistantDelta of page.tsx: append a text delta to the
content of the message with the given id. -/
def appendAssistantDelta (messageId : String) (delta : String)
    (msgs : List Message) : List Message :=
  msgs.map (appendDeltaMsg messageId delta)

/-- Per-message body of the audio-ready updater. -/
def setAudioMsg (messageId : String) (resolvedUrl : String) (msg : Message) : Message :=
  if msg.id = messageId then { msg with audioUrl := some resolvedUrl } else msg

/-- Audio-ready fold: set audioUrl of the target message (the
setMessages call in the audio branch of handleStreamEvent). -/
def setMessageAudio (messageId : String) (resolvedUrl : String)
    (msgs : List Message) : List Message :=
  msgs.map (setAudioMsg messageId resolvedUrl)

/-- Merged entry built in upsertToolCall when a correlation id matches:
name: toolCall.name || existing.name, arguments concatenated. -/
def mergeCall (toolCall call : ToolCall) : ToolCall :=
  { call with
    name := if toolCall.name = "" then call.name else toolCall.name
    arguments := call.arguments ++ toolCall.arguments }

/-- Fallback element for the (unreachable) out-of-bounds index read;
findIndex only returns indices inside the array. -/
def noCall : ToolCall := { id := none, name := "", arguments := "" }

/-- Per-message body of the upsertToolCall updater. -/
def upsertMsg (messageId : String) (toolCall : ToolCall) (msg : Message) : Message :=
  if msg.id ≠ messageId then msg
  else
    let existing := msg.toolCalls.getD []
    if strTruthy toolCall.id then
      match existing.findIdx? (fun call => call.id == toolCall.id) with
      | some index =>
        let updated := existing.set index (mergeCall toolCall (existing.getD index noCall))
        { msg with toolCalls := some updated }
      | none => { msg with toolCalls := some (existing ++ [toolCall]) }
    else { msg with toolCalls := some (existing ++ [toolCall]) }

/-- upsertToolCall of page.tsx: with a truthy correlation id matching
an existing entry, merge into that entry in place; otherwise append. -/
def upsertToolCall (messageId : String) (toolCall : ToolCall)
    (msgs : List Message) : List Message :=
  msgs.map (upsertMsg messageId toolCall)

/-! ## Event normalization and handleStreamEvent -/

/-- Flat tool-call fragment normalization (event.tool_call and the
elements of event.tool_calls): id as is, name || 'tool',
arguments || ''. -/
def normFlatTool (tc : Json) : ToolCall :=
  { id := tc.getStr "id"
    name := jsOrStr (tc.getStr "name") "tool"
    arguments := jsOrStr (tc.getStr "arguments") "" }

/-- Nested choice-array tool-call normalization: function?.name and
function?.arguments instead of the flat shape. -/
def normChoiceTool (call : Json) : ToolCall :=
  let fn := call.getField "function"
  { id := call.getStr "id"
    name := jsOrStr (match fn with | some f => f.getStr "name" | none => none) "tool"
    arguments := jsOrStr (match fn with | some f => f.getStr "arguments" | none => none) "" }

/-- Per-choice handling inside the choices branch: delta?.content as a
text delta, then delta?.tool_calls upserted one by one. -/
def handleChoice (messageId : String) (msgs : List Message) (choice : Json) :
    List Message :=
  let delta := choice.getField "delta"
  let msgs1 :=
    match delta with
    | some d =>
      match truthyStr (d.getStr "content") with
      | some c => appendAssistantDelta messageId c msgs
      | none => msgs
    | none => msgs
  match delta with
  | some d =>
    match d.getField "tool_calls" with
    | some (.arr calls) =>
      calls.foldl (fun acc call => upsertToolCall messageId (normChoiceTool call) acc) msgs1
    | _ => msgs1
  | none => msgs1

/-- handleStreamEvent of page.tsx: an error event short-circuits into a
delimited error annotation; otherwise the text delta, audio reference,
flat tool-call shapes and the nested choices shape are folded in
order. -/
def handleStreamEvent (serverUrl messageId : String) (event : Json)
    (msgs : List Message) : List Message :=
  match truthyStr (event.getStr "error") with
  | some e => appendAssistantDelta messageId ("\n[Error] " ++ e) msgs
  | none =>
    let msgs1 :=
      match firstTruthy [event.getStr "delta", event.getStr "content", event.getStr "text"] with
      | some d => appendAssistantDelta messageId d msgs
      | none => msgs
    let msgs2 :=
      match firstTruthy [event.getStr "audio_url", event.getStr "url"] with
      | some u => setMessageAudio messageId (resolveAudioUrl serverUrl u) msgs1
      | none => msgs1
    let msgs3 :=
      match event.getField "tool_call" with
      | some tc =>
        if tc.truthy then upsertToolCall messageId (normFlatTool tc) msgs2 else msgs2
      | none => msgs2
    let msgs4 :=
      match event.getField "tool_calls" with
      | some (.arr ts) =>
        if 0 < ts.length then
          ts.foldl (fun acc t => upsertToolCall messageId (normFlatTool t) acc) msgs3
        else msgs3
      | _ => msgs3
    match event.getField "choices" with
    | some (.arr cs) =>
      if 0 < cs.length then cs.foldl (fun acc c => handleChoice messageId acc c) msgs4
      else msgs4
    | _ => msgs4

/-! ## The stream decoder (parseStreamChunks) -/

/-- One emitted event of the decode loop: a parsed JSON payload handed
to handleStreamEvent, or the tolerant raw-text fallback of
newline-delimited framing. -/
inductive Emitted where
  | json (event : Json) : Emitted
  | rawText (payload : String) : Emitted

/-- Decoder state: the trace of emitted events and the message store. -/
structure DecodeState where
  events : List Emitted
  messages : List Message

/-- JS buffer.split('\n'): always returns at least one (possibly
empty) fragment; the last fragment is the part after the last
newline. -/
def splitNl : List Char → List (List Char)
  | [] => [[]]
  | c :: cs =>
    if c = '\n' then [] :: splitNl cs
    else
      match splitNl cs with
      | [] => [[c]]
      | l :: ls => (c :: l) :: ls

/-- Payload extraction from a line: trim, and under event-stream
framing strip a leading data: marker and trim again. -/
def payloadOf (isSse : Bool) (line : List Char) : List Char :=
  let trimmed := trimChars line
  if isSse && "data:".data.isPrefixOf trimmed then trimChars (trimmed.drop 5)
  else trimmed

/-- Outcome of handling one complete line: the sentinel terminates the
whole decode (`done`), anything else continues with a new state. -/
inductive LineStep where
  | done (st : DecodeState) : LineStep
  | next (st : DecodeState) : LineStep

/-- Body of the per-line loop of parseStreamChunks: skip blank lines,
terminate on the [DONE] sentinel, hand parsed payloads to
handleStreamEvent, and under newline-delimited framing fall back to a
plain-text delta on a payload that fails to parse. -/
def handleLine (isSse : Bool) (serverUrl messageId : String)
    (st : DecodeState) (line : List Char) : LineStep :=
  let trimmed := trimChars line
  if trimmed = [] then .next st
  else
    let payload := payloadOf isSse line
    if payload = "[DONE]".data then .done st
    else
      match parseJson payload with
      | some event =>
        .next ⟨st.events ++ [.json event],
               handleStreamEvent serverUrl messageId event st.messages⟩
      | none =>
        if isSse then .next st
        else
          .next ⟨st.events ++ [.rawText (String.mk payload)],
                 appendAssistantDelta messageId (String.mk payload) st.messages⟩

/-- Process the complete lines extracted from one chunk, stopping the
whole decode if the sentinel is hit. -/
def processLines (isSse : Bool) (serverUrl messageId : String)
    (st : DecodeState) : List (List Char) → LineStep
  | [] => .next st
  | line :: rest =>
    match handleLine isSse serverUrl messageId st line with
    | .done st' => .done st'
    | .next st' => processLines isSse serverUrl messageId st' rest

/-- Reader loop of parseStreamChunks: append each chunk to the rolling
buffer, split on newline, retain the final fragment as the new buffer,
process the complete lines; when the source is exhausted the remaining
buffer is not processed. -/
def decodeChunks (isSse : Bool) (serverUrl messageId : String) :
    List (List Char) → List Char → DecodeState → DecodeState
  | [], _, st => st
  | chunk :: rest, buffer, st =>
    let parts := splitNl (buffer ++ chunk)
    let newBuffer := parts.getLastD []
    match processLines isSse serverUrl messageId st parts.dropLast with
    | .done st' => st'
    | .next st' => decodeChunks isSse serverUrl messageId rest newBuffer st'

/-- parseStreamChunks of page.tsx over a sequence of transport chunks,
starting from an empty rolling buffer. -/
def parseStreamChunks (isSse : Bool) (serverUrl messageId : String)
    (chunks : List (List Char)) (st : DecodeState) : DecodeState :=
  decodeChunks isSse serverUrl messageId chunks [] st

/-! ## Silence detector (startSilenceDetection / check of page.tsx)

A sample is the pair of the Date.now() reading and the computed rms
amplitude at one animation frame; the rms value itself (a square root
of a mean of squares, computed in floating point in the source) enters
the detector only through its comparison with the threshold and is
modelled as a rational amplitude. -/

def silenceThreshold : Rat := mkRat 15 1000

def autoStopSilenceMs : Nat := 1200

/-- JS truthiness of silenceStartRef.current (null and 0 are falsy). -/
def numTruthy : Option Nat → Bool
  | none => false
  | some n => n ≠ 0

/-- One check() invocation on the silence state: `none` means
stopRecording() was called and the frame loop ended; `some st` means
the loop continues with the new silence-start state. -/
def silenceStep (st : Option Nat) (now : Nat) (rms : Rat) :
    Option (Option Nat) :=
  if rms < silenceThreshold then
    if !numTruthy st then some (some now)
    else if autoStopSilenceMs < now - st.getD 0 then none
    else some st
  else some none

/-- Result of running the detector over a finite sample sequence:
either auto-stop fired while processing the sample at the given index
(no later sample is processed), or the samples ran out. -/
inductive SilenceOutcome where
  | stopAt (k : Nat) : SilenceOutcome
  | noStop (st : Option Nat) : SilenceOutcome
deriving DecidableEq, Repr

/-- Run the check() loop over the samples: each frame either stops the
recording (ending the loop) or schedules the next frame. -/
def silenceRun (st : Option Nat) : List (Nat × Rat) → SilenceOutcome
  | [] => .noStop st
  | s :: rest =>
    match silenceStep st s.1 s.2 with
    | none => .stopAt 0
    | some st' =>
      match silenceRun st' rest with
      | .stopAt k => .stopAt (k + 1)
      | .noStop f => .noStop f

/-- Modelled from the spec: one step of tracking the start of the
current continuous below-threshold run (reset to none on an
at-or-above-threshold sample). -/
def quietStepSpec (st : Option Nat) (s : Nat × Rat) : Option Nat :=
  if s.2 < silenceThreshold then
    match st with
    | none => some s.1
    | some t => some t
  else none

/-- Modelled from the spec: the start time of the trailing run of
continuously below-threshold samples of a sample prefix (none when the
prefix is empty or ends with an at-or-above-threshold sample). -/
def quietStart (samples : List (Nat × Rat)) : Option Nat :=
  samples.foldl quietStepSpec none

/-- Modelled from the spec: sample k triggers auto-stop when it is
below threshold and the duration of the continuous below-threshold run
up to it exceeds the quiet period. -/
def claimTrigger (samples : List (Nat × Rat)) (k : Nat) : Bool :=
  match samples[k]? with
  | some s =>
    decide (s.2 < silenceThreshold) &&
      decide (autoStopSilenceMs < s.1 - ((quietStart (samples.take k)).getD s.1))
  | none => false

/-- Index k is the first index at or past base satisfying P. -/
def IsFirstFrom (P : Nat → Prop) (base k : Nat) : Prop :=
  P (base + k) ∧ ∀ j, base ≤ j → j < base + k → ¬P j

/-! ## Auxiliary notions used by the theorems -/

/-- Glue the pending line fragment onto the first fragment of the next
split (the seam between two buffer states). -/
def seam (x : List Char) : List (List Char) → List (List Char)
  | [] => [x]
  | y :: ys => (x ++ y) :: ys

/-- Final state after processing a line list, whether or not the
sentinel was hit. -/
def finishLines (isSse : Bool) (serverUrl messageId : String)
    (st : DecodeState) (lines : List (List Char)) : DecodeState :=
  match processLines isSse serverUrl messageId st lines with
  | .done st' => st'
  | .next st' => st'

/-- Drop one leading slash if present (used to state the single
separating-slash property of resolveAudioUrl). -/
def dropLeadingSlash (l : List Char) : List Char :=
  if "/".data.isPrefixOf l then l.drop 1 else l

/-- A per-message updater that can change only content, audioUrl and
toolCalls, and only on the message carrying the target id. -/
def KeepsIdentity (messageId : String) (f : Message → Message) : Prop :=
  (∀ m : Message, (f m).id = m.id ∧ (f m).role = m.role ∧ (f m).timestamp = m.timestamp) ∧
  (∀ m : Message, m.id ≠ messageId → f m = m)

/-- A message-store fold that acts pointwise through an
identity-preserving per-message updater. -/
def FoldSafe (messageId : String) (F : List Message → List Message) : Prop :=
  ∃ f : Message → Message, KeepsIdentity messageId f ∧ ∀ msgs : List Message, F msgs = msgs.map f

/-- Replace the tool-call list of a message (abbreviation used to
state the upsert theorems). -/
def withCalls (m : Message) (calls : List ToolCall) : Message :=
  { m with toolCalls := some calls }

/-! ## Concrete fixtures for witnesses and counterexamples -/

/-- Fresh assistant message as created by sendAudio before streaming. -/
def msgA : Message :=
  { id := "a1", role := .assistant, content := "", audioUrl := none
    toolCalls := some [], timestamp := 0 }

/-- A user message preceding the streaming target. -/
def msgU : Message :=
  { id := "u1", role := .user, content := "[Audio message]", audioUrl := none
    toolCalls := none, timestamp := 0 }

/-- An assistant message already holding a named tool call. -/
def msgW : Message :=
  { id := "a1", role := .assistant, content := "", audioUrl := none
    toolCalls := some [{ id := some "1", name := "get_weather", arguments := "a" }]
    timestamp := 0 }

/-- Event-stream transport bytes for the C4 scenario: two deltas, the
sentinel, and a further record that must never be processed. -/
def sseChunkC4 : List Char :=
  ("data: \x7b\"delta\":\"Hi\"\x7d\ndata: \x7b\"delta\":\" there\"\x7d\n" ++
   "data: [DONE]\ndata: \x7b\"delta\":\"IGNORED\"\x7d\n").data

/-! ## General lemmas -/

theorem map_getElem?_some {α β : Type} (f : α → β) (l : List α) (i : Nat) (a : α)
    (h : l[i]? = some a) : (l.map f)[i]? = some (f a) := by
  rw [List.getElem?_map, h]
  rfl

/-- The error branch of handleStreamEvent: a truthy error field
short-circuits into the delimited annotation. -/
theorem handleStreamEvent_error (serverUrl messageId : String) (event : Json)
    (msgs : List Message) (e : String)
    (hfield : event.getStr "error" = some e) (hne : e ≠ "") :
    handleStreamEvent serverUrl messageId event msgs =
      appendAssistantDelta messageId ("\n[Error] " ++ e) msgs := by
  unfold handleStreamEvent
  rw [hfield]
  simp [truthyStr, hne]

/-! ## C10 -/

/-- C10: for every decoded payload whose error field is a non-empty
string, handleStreamEvent performs only the error annotation; any text
delta, audio reference, tool-call fragment or choices array present in
the same payload produces no change to message state. -/
theorem c10_error_exclusive (serverUrl messageId : String) (event : Json)
    (msgs : List Message) (e : String)
    (hfield : event.getStr "error" = some e) (hne : e ≠ "") :
    handleStreamEvent serverUrl messageId event msgs =
      appendAssistantDelta messageId ("\n[Error] " ++ e) msgs :=
  handleStreamEvent_error serverUrl messageId event msgs e hfield hne

/-- Witness for C10: a payload carrying error together with a delta, an
audio url, a tool call and a choices array is folded as the bare error
annotation. -/
theorem c10_error_exclusive_witness :
    handleStreamEvent "https://h" "a1"
      (.obj [("error", .str "boom"), ("delta", .str "x"), ("audio_url", .str "/a.wav"),
             ("tool_call", .obj [("id", .str "1"), ("name", .str "t"), ("arguments", .str "z")]),
             ("choices", .arr [.obj [("delta", .obj [("content", .str "y")])]])])
      [msgU, msgA] =
      appendAssistantDelta "a1" ("\n[Error] " ++ "boom") [msgU, msgA] :=
  c10_error_exclusive "https://h" "a1" _ [msgU, msgA] "boom" rfl (by decide)

/-! ## C7 -/

/-- C7: resolveAudioUrl returns absolute http(s) references unchanged
and joins every other reference to the server URL with exactly one
separating slash (one trailing slash of the server URL and one leading
slash of the reference being absorbed); in particular /audio/1.wav
against https://h/ gives https://h/audio/1.wav. -/
theorem c7_resolve_audio_url (serverUrl url : String) :
    (("http://".data.isPrefixOf url.data || "https://".data.isPrefixOf url.data) = true →
      resolveAudioUrl serverUrl url = url) ∧
    (("http://".data.isPrefixOf url.data || "https://".data.isPrefixOf url.data) = false →
      (resolveAudioUrl serverUrl url).data =
        stripTrail serverUrl.data ++ '/' :: dropLeadingSlash url.data) ∧
    resolveAudioUrl "https://h/" "/audio/1.wav" = "https://h/audio/1.wav" := by
  refine ⟨?_, ?_, by decide⟩
  · intro h
    unfold resolveAudioUrl resolveChars
    rw [h]
    exact rfl
  · intro h
    unfold resolveAudioUrl resolveChars
    rw [h]
    show stripTrail serverUrl.data ++ _ ++ url.data = _
    unfold dropLeadingSlash
    cases hp : "/".data.isPrefixOf url.data with
    | true =>
      obtain ⟨t, ht⟩ := List.isPrefixOf_iff_prefix.mp hp
      rw [← ht]
      simp
    | false =>
      simp only [hp]
      have hs : "/".data = ['/'] := rfl
      simp [hs]

/-- Witness for C7: both branches at concrete inputs. -/
theorem c7_resolve_audio_url_witness :
    resolveAudioUrl "https://h/" "https://cdn/x.wav" = "https://cdn/x.wav" ∧
    (resolveAudioUrl "https://h" "audio/1.wav").data =
      stripTrail "https://h".data ++ '/' :: dropLeadingSlash "audio/1.wav".data :=
  ⟨(c7_resolve_audio_url "https://h/" "https://cdn/x.wav").1 (by decide),
   (c7_resolve_audio_url "https://h" "audio/1.wav").2.1 (by decide)⟩

/-! ## C4 -/

/-- C4: on the event-stream input with the two delta records, the
sentinel, and a further record behind the sentinel, the decoder emits
exactly the two text-delta events, terminates at the sentinel without
processing the later record, and the final content is Hi there. -/
theorem c4_sse_two_deltas_then_done :
    parseStreamChunks true "https://h" "a1" [sseChunkC4] ⟨[], [msgA]⟩ =
      ⟨[.json (.obj [("delta", .str "Hi")]), .json (.obj [("delta", .str " there")])],
       [{ msgA with content := "Hi there" }]⟩ := by
  rfl

/-! ## C5 -/

/-- Counterexample to C5: under newline-delimited framing the decoder
appends the trimmed line, not the raw line itself; a non-JSON line
with surrounding whitespace reaches the content without it. -/
theorem c5_counterexample :
    (parseStreamChunks false "https://h" "a1" [("  plain text  \n").data] ⟨[], [msgA]⟩).messages =
      [{ msgA with content := "plain text" }] ∧
    ("plain text" : String) ≠ "  plain text  " := by
  exact ⟨rfl, by decide⟩

/-- C5 (amended): a complete non-blank line whose payload fails to
parse as JSON is appended as a plain-text delta in its trimmed form
under newline-delimited framing, and is silently dropped, leaving the
state unchanged, under event-stream framing. -/
theorem c5_parse_failure_fallback (serverUrl messageId : String)
    (st : DecodeState) (line : List Char)
    (hblank : trimChars line ≠ [])
    (hdone : payloadOf false line ≠ "[DONE]".data)
    (hdoneSse : payloadOf true line ≠ "[DONE]".data)
    (hfailNd : parseJson (payloadOf false line) = none)
    (hfailSse : parseJson (payloadOf true line) = none) :
    handleLine false serverUrl messageId st line =
      .next ⟨st.events ++ [.rawText (String.mk (trimChars line))],
             appendAssistantDelta messageId (String.mk (trimChars line)) st.messages⟩ ∧
    handleLine true serverUrl messageId st line = .next st := by
  have hpf : payloadOf false line = trimChars line := by
    unfold payloadOf
    simp
  constructor
  · unfold handleLine
    rw [if_neg hblank]
    simp only [hpf] at hdone hfailNd
    simp [payloadOf, hdone, hfailNd]
  · unfold handleLine
    rw [if_neg hblank]
    simp [hdoneSse, hfailSse]

/-- Witness for C5 (amended): the line with whitespace around a
non-JSON word is appended trimmed under newline-delimited framing and
dropped under event-stream framing. -/
theorem c5_parse_failure_fallback_witness :
    handleLine false "https://h" "a1" ⟨[], [msgA]⟩ ("  plain text  ").data =
      .next ⟨[.rawText (String.mk (trimChars ("  plain text  ").data))],
             appendAssistantDelta "a1" (String.mk (trimChars ("  plain text  ").data)) [msgA]⟩ ∧
    handleLine true "https://h" "a1" ⟨[], [msgA]⟩ ("  plain text  ").data = .next ⟨[], [msgA]⟩ :=
  c5_parse_failure_fallback "https://h" "a1" ⟨[], [msgA]⟩ ("  plain text  ").data
    (by decide) (by decide) (by decide) rfl rfl

/-! ## C2 -/

/-- Counterexample to C2: merging a fragment whose name is non-empty
overwrites a non-empty existing name (get_weather becomes other). -/
theorem c2_counterexample :
    upsertToolCall "a1" { id := some "1", name := "other", arguments := "y" } [msgW] =
      [{ msgW with toolCalls := some [⟨some "1", "other", "ay"⟩] }] ∧
    ("other" : String) ≠ "get_weather" := by
  exact ⟨rfl, by decide⟩

/-- C2 (amended): when a fragment's correlation id matches an existing
entry, the entry's name is overwritten by the fragment's name whenever
the fragment's name is non-empty; the existing name is kept only when
the fragment's name is empty.  Arguments are concatenated. -/
theorem c2_name_merge_policy (messageId : String) (tc : ToolCall)
    (msgs : List Message) (i : Nat) (m : Message) (tid : String) (j : Nat) (c : ToolCall)
    (hm : msgs[i]? = some m) (hid : m.id = messageId)
    (htc : tc.id = some tid) (hne : tid ≠ "")
    (hfind : (m.toolCalls.getD []).findIdx? (fun call => call.id == tc.id) = some j)
    (hc : (m.toolCalls.getD [])[j]? = some c) :
    ∃ m', (upsertToolCall messageId tc msgs)[i]? = some m' ∧
      m'.toolCalls = some ((m.toolCalls.getD []).set j (mergeCall tc c)) ∧
      (mergeCall tc c).name = (if tc.name = "" then c.name else tc.name) ∧
      (mergeCall tc c).arguments = c.arguments ++ tc.arguments := by
  refine ⟨upsertMsg messageId tc m, map_getElem?_some _ msgs i m hm, ?_, rfl, rfl⟩
  unfold upsertMsg
  rw [if_neg (by simp [hid])]
  have htr : strTruthy tc.id = true := by
    rw [htc]
    simp [strTruthy, hne]
  rw [htr]
  simp only [if_true, hfind]
  simp [hc]

/-- Witness for C2 (amended): the get_weather entry is renamed by the
incoming non-empty name other and the argument fragments concatenate. -/
theorem c2_name_merge_policy_witness :
    ∃ m', (upsertToolCall "a1" ⟨some "1", "other", "y"⟩ [msgW])[0]? = some m' ∧
      m'.toolCalls = some (((msgW.toolCalls).getD []).set 0
        (mergeCall ⟨some "1", "other", "y"⟩ ⟨some "1", "get_weather", "a"⟩)) ∧
      (mergeCall ⟨some "1", "other", "y"⟩ ⟨some "1", "get_weather", "a"⟩).name =
        (if ("other" : String) = "" then "get_weather" else "other") ∧
      (mergeCall ⟨some "1", "other", "y"⟩ ⟨some "1", "get_weather", "a"⟩).arguments =
        "a" ++ "y" :=
  c2_name_merge_policy "a1" ⟨some "1", "other", "y"⟩ [msgW] 0 msgW "1" 0
    ⟨some "1", "get_weather", "a"⟩ rfl rfl rfl (by decide) rfl rfl

/-! ## C3 -/

theorem findIdx?_go_none {α : Type} (p : α → Bool) (l : List α)
    (h : ∀ x ∈ l, p x = false) : ∀ i : Nat, List.findIdx? p l i = none := by
  induction l with
  | nil => intro i; rfl
  | cons a l ih =>
    intro i
    rw [List.findIdx?_cons, h a (by simp)]
    simp only [Bool.false_eq_true, if_false]
    exact ih (fun x hx => h x (by simp [hx])) (i + 1)

theorem findIdx?_none_of_all {α : Type} (p : α → Bool) (l : List α)
    (h : ∀ x ∈ l, p x = false) : l.findIdx? p = none :=
  findIdx?_go_none p l h 0

theorem findIdx?_go_append_singleton {α : Type} (p : α → Bool) (l : List α) (x : α)
    (h : ∀ y ∈ l, p y = false) (hx : p x = true) :
    ∀ i : Nat, List.findIdx? p (l ++ [x]) i = some (i + l.length) := by
  induction l with
  | nil =>
    intro i
    simp [List.findIdx?_cons, hx]
  | cons a l ih =>
    intro i
    rw [List.cons_append, List.findIdx?_cons, h a (by simp)]
    simp only [Bool.false_eq_true, if_false]
    rw [ih (fun y hy => h y (by simp [hy])) (i + 1)]
    congr 1
    simp only [List.length_cons]
    omega

theorem findIdx?_append_singleton {α : Type} (p : α → Bool) (l : List α) (x : α)
    (h : ∀ y ∈ l, p y = false) (hx : p x = true) :
    (l ++ [x]).findIdx? p = some l.length := by
  rw [findIdx?_go_append_singleton p l x h hx 0]
  simp

theorem set_append_length {α : Type} (l : List α) (x y : α) :
    (l ++ [x]).set l.length y = l ++ [y] := by
  induction l with
  | nil => rfl
  | cons a l ih => simp [List.set, ih]

theorem getD_append_length {α : Type} (l : List α) (x d : α) :
    (l ++ [x]).getD l.length d = x := by
  rw [List.getD_eq_getElem?_getD, List.getElem?_append_right (Nat.le_refl _)]
  simp

/-- Element access through the upsert fold. -/
theorem upsertToolCall_getElem?_some (messageId : String) (tc : ToolCall)
    (msgs : List Message) (i : Nat) (m : Message) (hm : msgs[i]? = some m) :
    (upsertToolCall messageId tc msgs)[i]? = some (upsertMsg messageId tc m) :=
  map_getElem?_some (upsertMsg messageId tc) msgs i m hm

/-- Non-matching upsert appends the fragment as a new entry. -/
theorem upsertMsg_append (messageId : String) (tc : ToolCall) (m : Message)
    (hid : m.id = messageId)
    (h : strTruthy tc.id = false ∨ ∀ c ∈ m.toolCalls.getD [], (c.id == tc.id) = false) :
    upsertMsg messageId tc m = withCalls m (m.toolCalls.getD [] ++ [tc]) := by
  unfold upsertMsg withCalls
  rw [if_neg (by simp [hid])]
  cases htr : strTruthy tc.id with
  | false => simp
  | true =>
    rcases h with h | h
    · rw [htr] at h
      exact absurd h (by simp)
    · simp only [if_true]
      rw [findIdx?_none_of_all _ _ h]

/-- Matching upsert on an entry sitting at the end of the list merges
into it in place. -/
theorem upsertMsg_merge_end (messageId tid : String) (tc2 : ToolCall) (m : Message)
    (l : List ToolCall) (tc1 : ToolCall)
    (hid : m.id = messageId) (htc2 : tc2.id = some tid) (hne : tid ≠ "")
    (hl : m.toolCalls = some (l ++ [tc1])) (h1 : tc1.id = some tid)
    (h : ∀ c ∈ l, (c.id == (some tid : Option String)) = false) :
    upsertMsg messageId tc2 m = withCalls m (l ++ [mergeCall tc2 tc1]) := by
  unfold upsertMsg withCalls
  rw [if_neg (by simp [hid])]
  have htr : strTruthy tc2.id = true := by
    rw [htc2]
    simp [strTruthy, hne]
  rw [htr]
  simp only [if_true, hl, Option.getD_some]
  have hfind : (l ++ [tc1]).findIdx? (fun call => call.id == tc2.id) = some l.length := by
    refine findIdx?_append_singleton _ l tc1 ?_ ?_
    · intro y hy
      rw [htc2]
      exact h y hy
    · rw [h1, htc2]
      simp
  rw [hfind]
  simp [getD_append_length, set_append_length]

/-- C3: two fragments with the same truthy correlation id fold into a
single entry whose arguments are concatenated in arrival order; a
fragment with no (or an unmatched) correlation id is appended as a new
entry; the city/Paris pair merges into one valid-JSON argument
string. -/
theorem c3_arguments_concatenation :
    (∀ (messageId : String) (tc : ToolCall) (msgs : List Message) (i : Nat) (m : Message),
       msgs[i]? = some m → m.id = messageId →
       (strTruthy tc.id = false ∨ ∀ c ∈ m.toolCalls.getD [], (c.id == tc.id) = false) →
       (upsertToolCall messageId tc msgs)[i]? =
         some (withCalls m (m.toolCalls.getD [] ++ [tc]))) ∧
    (∀ (messageId tid n1 a1 n2 a2 : String) (msgs : List Message) (i : Nat) (m : Message),
       msgs[i]? = some m → m.id = messageId → tid ≠ "" →
       (∀ c ∈ m.toolCalls.getD [], (c.id == (some tid : Option String)) = false) →
       (upsertToolCall messageId ⟨some tid, n2, a2⟩
          (upsertToolCall messageId ⟨some tid, n1, a1⟩ msgs))[i]? =
         some (withCalls m
           (m.toolCalls.getD [] ++ [⟨some tid, if n2 = "" then n1 else n2, a1 ++ a2⟩]))) ∧
    upsertToolCall "a1" ⟨some "1", "", "\"Paris\"\x7d"⟩
        (upsertToolCall "a1" ⟨some "1", "get_weather", "\x7b\"city\":"⟩ [msgA]) =
      [withCalls msgA [⟨some "1", "get_weather", "\x7b\"city\":\"Paris\"\x7d"⟩]] := by
  refine ⟨?_, ?_, rfl⟩
  · intro messageId tc msgs i m hm hid h
    rw [upsertToolCall_getElem?_some messageId tc msgs i m hm,
      upsertMsg_append messageId tc m hid h]
  · intro messageId tid n1 a1 n2 a2 msgs i m hm hid hne h
    have h1 : (upsertToolCall messageId ⟨some tid, n1, a1⟩ msgs)[i]? =
        some (withCalls m (m.toolCalls.getD [] ++ [⟨some tid, n1, a1⟩])) := by
      rw [upsertToolCall_getElem?_some messageId _ msgs i m hm]
      rw [upsertMsg_append messageId _ m hid (Or.inr h)]
    rw [upsertToolCall_getElem?_some messageId _ _ i _ h1]
    have h2 := upsertMsg_merge_end messageId tid
      (⟨some tid, n2, a2⟩ : ToolCall)
      (withCalls m (m.toolCalls.getD [] ++ [(⟨some tid, n1, a1⟩ : ToolCall)]))
      (m.toolCalls.getD []) (⟨some tid, n1, a1⟩ : ToolCall)
      hid rfl hne rfl rfl h
    rw [h2]
    rfl

/-- Witness for C3: the Paris fragments merged through the general
two-fragment clause starting from the fresh assistant message. -/
theorem c3_arguments_concatenation_witness :
    (upsertToolCall "a1" ⟨some "1", "", "\"Paris\"\x7d"⟩
       (upsertToolCall "a1" ⟨some "1", "get_weather", "\x7b\"city\":"⟩ [msgU, msgA]))[1]? =
      some (withCalls msgA
        ((msgA.toolCalls).getD [] ++
          [⟨some "1", if ("" : String) = "" then "get_weather" else "", "\x7b\"city\":" ++ "\"Paris\"\x7d"⟩])) :=
  c3_arguments_concatenation.2.1 "a1" "1" "get_weather" "\x7b\"city\":" "" "\"Paris\"\x7d"
    [msgU, msgA] 1 msgA rfl rfl (by decide) (by decide)

/-! ## C6 -/

/-- C6: a record whose payload parses to an event with a non-empty
error field folds as the delimited error annotation and the per-line
loop continues: the remaining records are processed from the annotated
state exactly as they would be otherwise. -/
theorem c6_error_event_continues (isSse : Bool) (serverUrl messageId : String)
    (st : DecodeState) (line : List Char) (rest : List (List Char)) (j : Json) (e : String)
    (hblank : trimChars line ≠ [])
    (hparse : parseJson (payloadOf isSse line) = some j)
    (herr : j.getStr "error" = some e) (hne : e ≠ "") :
    processLines isSse serverUrl messageId st (line :: rest) =
      processLines isSse serverUrl messageId
        ⟨st.events ++ [.json j],
         appendAssistantDelta messageId ("\n[Error] " ++ e) st.messages⟩ rest := by
  have hdone : payloadOf isSse line ≠ "[DONE]".data := by
    intro hEq
    rw [hEq] at hparse
    have hn : parseJson "[DONE]".data = none := rfl
    rw [hn] at hparse
    exact Option.noConfusion hparse
  have hline : handleLine isSse serverUrl messageId st line =
      .next ⟨st.events ++ [.json j],
             appendAssistantDelta messageId ("\n[Error] " ++ e) st.messages⟩ := by
    unfold handleLine
    rw [if_neg hblank, if_neg hdone, hparse]
    show LineStep.next ⟨st.events ++ [.json j],
        handleStreamEvent serverUrl messageId j st.messages⟩ = _
    rw [handleStreamEvent_error serverUrl messageId j st.messages e herr hne]
  simp only [processLines, hline]

/-- Witness for C6: an error record followed by a delta record; the
delta record is still processed from the annotated state. -/
theorem c6_error_event_continues_witness :
    processLines false "https://h" "a1" ⟨[], [msgA]⟩
        [("\x7b\"error\":\"boom\"\x7d").data, ("\x7b\"delta\":\"ok\"\x7d").data] =
      processLines false "https://h" "a1"
        ⟨[.json (.obj [("error", .str "boom")])],
         appendAssistantDelta "a1" ("\n[Error] " ++ "boom") [msgA]⟩
        [("\x7b\"delta\":\"ok\"\x7d").data] :=
  c6_error_event_continues false "https://h" "a1" ⟨[], [msgA]⟩
    ("\x7b\"error\":\"boom\"\x7d").data [("\x7b\"delta\":\"ok\"\x7d").data]
    (.obj [("error", .str "boom")]) "boom" (by decide) rfl rfl (by decide)

/-! ## C8 -/

theorem foldSafe_id (messageId : String) : FoldSafe messageId (fun msgs => msgs) :=
  ⟨fun m => m, ⟨fun _ => ⟨rfl, rfl, rfl⟩, fun _ _ => rfl⟩,
   fun msgs => (List.map_id msgs).symm⟩

theorem foldSafe_appendDelta (messageId d : String) :
    FoldSafe messageId (appendAssistantDelta messageId d) := by
  refine ⟨appendDeltaMsg messageId d, ⟨?_, ?_⟩, fun msgs => rfl⟩
  · intro m
    unfold appendDeltaMsg
    by_cases h : m.id = messageId <;> simp [h]
  · intro m h
    unfold appendDeltaMsg
    rw [if_neg h]

theorem foldSafe_setAudio (messageId u : String) :
    FoldSafe messageId (setMessageAudio messageId u) := by
  refine ⟨setAudioMsg messageId u, ⟨?_, ?_⟩, fun msgs => rfl⟩
  · intro m
    unfold setAudioMsg
    by_cases h : m.id = messageId <;> simp [h]
  · intro m h
    unfold setAudioMsg
    rw [if_neg h]

theorem foldSafe_upsert (messageId : String) (tc : ToolCall) :
    FoldSafe messageId (upsertToolCall messageId tc) := by
  refine ⟨upsertMsg messageId tc, ⟨?_, ?_⟩, fun msgs => rfl⟩
  · intro m
    unfold upsertMsg
    by_cases h : m.id ≠ messageId
    · rw [if_pos h]
      exact ⟨rfl, rfl, rfl⟩
    · rw [if_neg h]
      by_cases htr : strTruthy tc.id = true
      · rw [if_pos htr]
        cases hf : List.findIdx? (fun call => call.id == tc.id) (m.toolCalls.getD []) with
        | none => simp [hf]
        | some idx => simp [hf]
      · rw [if_neg htr]
        exact ⟨rfl, rfl, rfl⟩
  · intro m h
    unfold upsertMsg
    rw [if_pos h]

theorem foldSafe_comp (messageId : String) (F G : List Message → List Message)
    (hF : FoldSafe messageId F) (hG : FoldSafe messageId G) :
    FoldSafe messageId (fun msgs => G (F msgs)) := by
  obtain ⟨f, ⟨hf1, hf2⟩, hfm⟩ := hF
  obtain ⟨g, ⟨hg1, hg2⟩, hgm⟩ := hG
  refine ⟨fun m => g (f m), ⟨?_, ?_⟩, ?_⟩
  · intro m
    obtain ⟨a1, a2, a3⟩ := hf1 m
    obtain ⟨b1, b2, b3⟩ := hg1 (f m)
    exact ⟨b1.trans a1, b2.trans a2, b3.trans a3⟩
  · intro m hm
    show g (f m) = m
    rw [hf2 m hm, hg2 m hm]
  · intro msgs
    show G (F msgs) = _
    rw [hfm msgs, hgm (msgs.map f), List.map_map]
    rfl

theorem foldSafe_foldl {β : Type} (messageId : String)
    (u : β → List Message → List Message) (l : List β)
    (hu : ∀ b, FoldSafe messageId (u b)) :
    FoldSafe messageId (fun msgs => l.foldl (fun acc b => u b acc) msgs) := by
  induction l with
  | nil => exact foldSafe_id messageId
  | cons b l ih =>
    exact foldSafe_comp messageId (u b)
      (fun msgs => l.foldl (fun acc b => u b acc) msgs) (hu b) ih

theorem foldSafe_handleChoice (messageId : String) (choice : Json) :
    FoldSafe messageId (fun msgs => handleChoice messageId msgs choice) := by
  unfold handleChoice
  cases hd : choice.getField "delta" with
  | none =>
    simp only [hd]
    exact foldSafe_id messageId
  | some d =>
    simp only [hd]
    have hbase : FoldSafe messageId (fun msgs =>
        match truthyStr (d.getStr "content") with
        | some c => appendAssistantDelta messageId c msgs
        | none => msgs) := by
      cases ht : truthyStr (d.getStr "content") with
      | none =>
        simp only [ht]
        exact foldSafe_id messageId
      | some c =>
        simp only [ht]
        exact foldSafe_appendDelta messageId c
    cases htc : d.getField "tool_calls" with
    | none =>
      simp only [htc]
      exact hbase
    | some tj =>
      cases tj with
      | arr calls =>
        simp only [htc]
        exact foldSafe_comp messageId _ _ hbase
          (foldSafe_foldl messageId
            (fun call acc => upsertToolCall messageId (normChoiceTool call) acc) calls
            (fun call => foldSafe_upsert messageId (normChoiceTool call)))
      | null =>
        simp only [htc]
        exact hbase
      | bool b =>
        simp only [htc]
        exact hbase
      | num s =>
        simp only [htc]
        exact hbase
      | str s =>
        simp only [htc]
        exact hbase
      | obj fs =>
        simp only [htc]
        exact hbase

theorem foldSafe_handleStreamEvent (serverUrl messageId : String) (ev : Json) :
    FoldSafe messageId (handleStreamEvent serverUrl messageId ev) := by
  unfold handleStreamEvent
  cases he : truthyStr (ev.getStr "error") with
  | some e =>
    simp only [he]
    exact foldSafe_appendDelta messageId _
  | none =>
    simp only [he]
    have hA : FoldSafe messageId (fun msgs =>
        match firstTruthy [ev.getStr "delta", ev.getStr "content", ev.getStr "text"] with
        | some d => appendAssistantDelta messageId d msgs
        | none => msgs) := by
      cases hf : firstTruthy [ev.getStr "delta", ev.getStr "content", ev.getStr "text"] with
      | none =>
        simp only [hf]
        exact foldSafe_id messageId
      | some d =>
        simp only [hf]
        exact foldSafe_appendDelta messageId d
    have hB : FoldSafe messageId (fun msgs =>
        match firstTruthy [ev.getStr "audio_url", ev.getStr "url"] with
        | some u => setMessageAudio messageId (resolveAudioUrl serverUrl u) msgs
        | none => msgs) := by
      cases hf : firstTruthy [ev.getStr "audio_url", ev.getStr "url"] with
      | none =>
        simp only [hf]
        exact foldSafe_id messageId
      | some u =>
        simp only [hf]
        exact foldSafe_setAudio messageId (resolveAudioUrl serverUrl u)
    have hC : FoldSafe messageId (fun msgs =>
        match ev.getField "tool_call" with
        | some tc =>
          if tc.truthy then upsertToolCall messageId (normFlatTool tc) msgs else msgs
        | none => msgs) := by
      cases hf : ev.getField "tool_call" with
      | none =>
        simp only [hf]
        exact foldSafe_id messageId
      | some tc =>
        simp only [hf]
        cases htr : tc.truthy with
        | false =>
          simp only [htr, Bool.false_eq_true, if_false]
          exact foldSafe_id messageId
        | true =>
          simp only [htr, if_true]
          exact foldSafe_upsert messageId (normFlatTool tc)
    have hD : FoldSafe messageId (fun msgs =>
        match ev.getField "tool_calls" with
        | some (.arr ts) =>
          if 0 < ts.length then
            ts.foldl (fun acc t => upsertToolCall messageId (normFlatTool t) acc) msgs
          else msgs
        | _ => msgs) := by
      cases hf : ev.getField "tool_calls" with
      | none =>
        simp only [hf]
        exact foldSafe_id messageId
      | some tj =>
        cases tj with
        | arr ts =>
          simp only [hf]
          by_cases hlen : 0 < ts.length
          · simp only [hlen, if_true]
            exact foldSafe_foldl messageId
              (fun t acc => upsertToolCall messageId (normFlatTool t) acc) ts
              (fun t => foldSafe_upsert messageId (normFlatTool t))
          · simp only [hlen, if_false]
            exact foldSafe_id messageId
        | null =>
          simp only [hf]
          exact foldSafe_id messageId
        | bool b =>
          simp only [hf]
          exact foldSafe_id messageId
        | num s =>
          simp only [hf]
          exact foldSafe_id messageId
        | str s =>
          simp only [hf]
          exact foldSafe_id messageId
        | obj fs =>
          simp only [hf]
          exact foldSafe_id messageId
    have hE : FoldSafe messageId (fun msgs =>
        match ev.getField "choices" with
        | some (.arr cs) =>
          if 0 < cs.length then cs.foldl (fun acc c => handleChoice messageId acc c) msgs
          else msgs
        | _ => msgs) := by
      cases hf : ev.getField "choices" with
      | none =>
        simp only [hf]
        exact foldSafe_id messageId
      | some cj =>
        cases cj with
        | arr cs =>
          simp only [hf]
          by_cases hlen : 0 < cs.length
          · simp only [hlen, if_true]
            exact foldSafe_foldl messageId
              (fun c acc => handleChoice messageId acc c) cs
              (fun c => foldSafe_handleChoice messageId c)
          · simp only [hlen, if_false]
            exact foldSafe_id messageId
        | null =>
          simp only [hf]
          exact foldSafe_id messageId
        | bool b =>
          simp only [hf]
          exact foldSafe_id messageId
        | num s =>
          simp only [hf]
          exact foldSafe_id messageId
        | str s =>
          simp only [hf]
          exact foldSafe_id messageId
        | obj fs =>
          simp only [hf]
          exact foldSafe_id messageId
    exact foldSafe_comp messageId _ _
      (foldSafe_comp messageId _ _
        (foldSafe_comp messageId _ _
          (foldSafe_comp messageId _ _ hA hB) hC) hD) hE

/-- Extract the C8 shape from a FoldSafe operation. -/
theorem foldSafe_getElem? (messageId : String) (F : List Message → List Message)
    (h : FoldSafe messageId F) (msgs : List Message) (i : Nat) (m : Message)
    (hm : msgs[i]? = some m) :
    ∃ m', (F msgs)[i]? = some m' ∧ m'.id = m.id ∧ m'.role = m.role ∧
      m'.timestamp = m.timestamp ∧ (m.id ≠ messageId → m' = m) := by
  obtain ⟨f, ⟨h1, h2⟩, hmap⟩ := h
  refine ⟨f m, ?_, (h1 m).1, (h1 m).2.1, (h1 m).2.2, fun hne => h2 m hne⟩
  rw [hmap msgs]
  exact map_getElem?_some f msgs i m hm

/-- C8: the stream folds (text delta, tool-call upsert, and
handleStreamEvent as a whole including audio-ready and error events)
never change a message's id, role or timestamp, and leave every
message other than the streaming target entirely unchanged. -/
theorem c8_folds_preserve_identity (serverUrl messageId d : String) (tc : ToolCall)
    (ev : Json) (msgs : List Message) (i : Nat) (m : Message)
    (hm : msgs[i]? = some m) :
    (∃ m', (appendAssistantDelta messageId d msgs)[i]? = some m' ∧ m'.id = m.id ∧
       m'.role = m.role ∧ m'.timestamp = m.timestamp ∧ (m.id ≠ messageId → m' = m)) ∧
    (∃ m', (upsertToolCall messageId tc msgs)[i]? = some m' ∧ m'.id = m.id ∧
       m'.role = m.role ∧ m'.timestamp = m.timestamp ∧ (m.id ≠ messageId → m' = m)) ∧
    (∃ m', (handleStreamEvent serverUrl messageId ev msgs)[i]? = some m' ∧ m'.id = m.id ∧
       m'.role = m.role ∧ m'.timestamp = m.timestamp ∧ (m.id ≠ messageId → m' = m)) :=
  ⟨foldSafe_getElem? messageId _ (foldSafe_appendDelta messageId d) msgs i m hm,
   foldSafe_getElem? messageId _ (foldSafe_upsert messageId tc) msgs i m hm,
   foldSafe_getElem? messageId _ (foldSafe_handleStreamEvent serverUrl messageId ev) msgs i m hm⟩

/-- Witness for C8: the user message The fold target is a1; the u1
user message keeps all fields across all three folds. -/
theorem c8_folds_preserve_identity_witness :
    (∃ m', (appendAssistantDelta "a1" "x" [msgU, msgA])[0]? = some m' ∧ m'.id = msgU.id ∧
       m'.role = msgU.role ∧ m'.timestamp = msgU.timestamp ∧ (msgU.id ≠ "a1" → m' = msgU)) ∧
    (∃ m', (upsertToolCall "a1" ⟨some "1", "t", "z"⟩ [msgU, msgA])[0]? = some m' ∧
       m'.id = msgU.id ∧ m'.role = msgU.role ∧ m'.timestamp = msgU.timestamp ∧
       (msgU.id ≠ "a1" → m' = msgU)) ∧
    (∃ m', (handleStreamEvent "https://h" "a1"
         (.obj [("delta", .str "y"), ("audio_url", .str "/a.wav")]) [msgU, msgA])[0]? =
           some m' ∧ m'.id = msgU.id ∧ m'.role = msgU.role ∧ m'.timestamp = msgU.timestamp ∧
       (msgU.id ≠ "a1" → m' = msgU)) :=
  c8_folds_preserve_identity "https://h" "a1" "x" ⟨some "1", "t", "z"⟩
    (.obj [("delta", .str "y"), ("audio_url", .str "/a.wav")]) [msgU, msgA] 0 msgU rfl

/-! ## C1 -/

theorem splitNl_cons_nl (cs : List Char) : splitNl ('\n' :: cs) = [] :: splitNl cs := by
  conv_lhs => unfold splitNl
  rw [if_pos rfl]

theorem splitNl_cons_not_nl (c : Char) (cs : List Char) (h : ¬c = '\n') :
    splitNl (c :: cs) =
      match splitNl cs with
      | [] => [[c]]
      | l :: ls => (c :: l) :: ls := by
  conv_lhs => unfold splitNl
  rw [if_neg h]

theorem splitNl_ne_nil (l : List Char) : splitNl l ≠ [] := by
  induction l with
  | nil => simp [splitNl]
  | cons c cs ih =>
    by_cases h : c = '\n'
    · subst h
      rw [splitNl_cons_nl]
      simp
    · rw [splitNl_cons_not_nl c cs h]
      cases hs : splitNl cs with
      | nil => simp
      | cons x xs => simp

theorem getLastD_cons_irrel {α : Type} (y : α) (ys : List α) (a b : α) :
    (y :: ys).getLastD a = (y :: ys).getLastD b := rfl

theorem dropLast_cons_ne {α : Type} (x : α) (S : List α) (h : S ≠ []) :
    (x :: S).dropLast = x :: S.dropLast := by
  cases S with
  | nil => exact absurd rfl h
  | cons y ys => rfl

/-- The retained buffer fragment after a split never contains a
newline. -/
theorem nl_not_mem_last (l : List Char) : '\n' ∉ (splitNl l).getLastD [] := by
  induction l with
  | nil => simp [splitNl]
  | cons c cs ih =>
    by_cases h : c = '\n'
    · subst h
      rw [splitNl_cons_nl]
      cases hs : splitNl cs with
      | nil => exact absurd hs (splitNl_ne_nil cs)
      | cons x xs =>
        rw [List.getLastD_cons]
        rw [hs] at ih
        exact ih
    · rw [splitNl_cons_not_nl c cs h]
      cases hs : splitNl cs with
      | nil => exact absurd hs (splitNl_ne_nil cs)
      | cons x xs =>
        cases xs with
        | nil =>
          rw [hs] at ih
          intro hmem
          rcases List.mem_cons.mp hmem with heq | hmem'
          · exact h heq.symm
          · exact ih hmem'
        | cons y ys =>
          rw [List.getLastD_cons]
          rw [hs, List.getLastD_cons] at ih
          rw [getLastD_cons_irrel y ys (c :: x) x]
          exact ih

/-- Splitting a concatenation: the completed lines of the left part,
then the split of the retained fragment glued to the right part. -/
theorem splitNl_append_eq (a b : List Char) :
    splitNl (a ++ b) =
      (splitNl a).dropLast ++ splitNl ((splitNl a).getLastD [] ++ b) := by
  induction a with
  | nil => simp [splitNl]
  | cons c a ih =>
    by_cases h : c = '\n'
    · subst h
      rw [List.cons_append, splitNl_cons_nl, splitNl_cons_nl, ih]
      rw [dropLast_cons_ne _ _ (splitNl_ne_nil a), List.getLastD_cons]
      rfl
    · rw [List.cons_append, splitNl_cons_not_nl c (a ++ b) h, ih,
        splitNl_cons_not_nl c a h]
      cases hs : splitNl a with
      | nil => exact absurd hs (splitNl_ne_nil a)
      | cons x xs =>
        cases xs with
        | nil =>
          have h1 : ([x] : List (List Char)).getLastD [] = x := rfl
          have h2 : ([c :: x] : List (List Char)).getLastD [] = c :: x := rfl
          rw [h1, h2]
          simp only [List.dropLast_single, List.nil_append]
          rw [List.cons_append, splitNl_cons_not_nl c (x ++ b) h]
        | cons x2 xs2 =>
          simp only [dropLast_cons_ne x (x2 :: xs2) (by simp),
            dropLast_cons_ne (c :: x) (x2 :: xs2) (by simp),
            List.getLastD_cons, List.cons_append]

theorem processLines_append (isSse : Bool) (su mid : String)
    (l₁ l₂ : List (List Char)) :
    ∀ st : DecodeState,
      processLines isSse su mid st (l₁ ++ l₂) =
        match processLines isSse su mid st l₁ with
        | .done st' => .done st'
        | .next st' => processLines isSse su mid st' l₂ := by
  induction l₁ with
  | nil => intro st; rfl
  | cons line rest ih =>
    intro st
    show processLines isSse su mid st (line :: (rest ++ l₂)) = _
    cases hl : handleLine isSse su mid st line with
    | done st' => simp [processLines, hl]
    | next st' => simp [processLines, hl, ih st']

theorem finishLines_append (isSse : Bool) (su mid : String)
    (st : DecodeState) (l₁ l₂ : List (List Char)) :
    finishLines isSse su mid st (l₁ ++ l₂) =
      match processLines isSse su mid st l₁ with
      | .done st' => st'
      | .next st' => finishLines isSse su mid st' l₂ := by
  unfold finishLines
  rw [processLines_append isSse su mid l₁ l₂ st]
  cases processLines isSse su mid st l₁ with
  | done st' => rfl
  | next st' => rfl

/-- The reader loop computes the fold of the completed lines of the
whole accumulated text. -/
theorem decode_eq (isSse : Bool) (su mid : String) :
    ∀ (chunks : List (List Char)) (buffer : List Char) (st : DecodeState),
      chunks ≠ [] →
      decodeChunks isSse su mid chunks buffer st =
        finishLines isSse su mid st (splitNl (buffer ++ chunks.flatten)).dropLast := by
  intro chunks
  induction chunks with
  | nil => intro buffer st h; exact absurd rfl h
  | cons c cs ih =>
    intro buffer st _
    cases cs with
    | nil =>
      show (match processLines isSse su mid st (splitNl (buffer ++ c)).dropLast with
            | .done st' => st'
            | .next st' => decodeChunks isSse su mid []
                ((splitNl (buffer ++ c)).getLastD []) st') = _
      simp only [List.flatten_cons, List.flatten_nil, List.append_nil]
      unfold finishLines
      cases hp : processLines isSse su mid st (splitNl (buffer ++ c)).dropLast with
      | done st' => rfl
      | next st' => rfl
    | cons c2 cs2 =>
      show (match processLines isSse su mid st (splitNl (buffer ++ c)).dropLast with
            | .done st' => st'
            | .next st' => decodeChunks isSse su mid (c2 :: cs2)
                ((splitNl (buffer ++ c)).getLastD []) st') = _
      have hflat : buffer ++ (c :: c2 :: cs2).flatten =
          (buffer ++ c) ++ (c2 :: cs2).flatten := by
        rw [List.flatten_cons, List.append_assoc]
      rw [hflat, splitNl_append_eq (buffer ++ c) ((c2 :: cs2).flatten)]
      rw [List.dropLast_append_of_ne_nil _ (splitNl_ne_nil _)]
      rw [finishLines_append]
      cases hp : processLines isSse su mid st (splitNl (buffer ++ c)).dropLast with
      | done st' => rfl
      | next st' =>
        exact ih ((splitNl (buffer ++ c)).getLastD []) st' (by simp)

/-- The whole decode depends only on the flattened byte stream. -/
theorem decode_flatten (isSse : Bool) (su mid : String)
    (chunks : List (List Char)) (st : DecodeState) :
    decodeChunks isSse su mid chunks [] st =
      finishLines isSse su mid st (splitNl chunks.flatten).dropLast := by
  cases chunks with
  | nil => rfl
  | cons c cs =>
    have h := decode_eq isSse su mid (c :: cs) [] st (by simp)
    rw [h]
    simp

/-- C1: two chunkings of the same logical stream produce the same
emitted event sequence and the same final message state. -/
theorem c1_chunk_boundary_independence (isSse : Bool) (su mid : String)
    (st : DecodeState) (chunks1 chunks2 : List (List Char))
    (h : chunks1.flatten = chunks2.flatten) :
    parseStreamChunks isSse su mid chunks1 st =
      parseStreamChunks isSse su mid chunks2 st := by
  unfold parseStreamChunks
  rw [decode_flatten, decode_flatten, h]

/-- Witness for C1: the SSE stream cut mid-line decodes exactly as the
one-chunk transport. -/
theorem c1_chunk_boundary_independence_witness :
    parseStreamChunks true "https://h" "a1"
        [("data: \x7b\"del").data, ("ta\":\"Hi\"\x7d\nda").data, ("ta: [DONE]\n").data]
        ⟨[], [msgA]⟩ =
      parseStreamChunks true "https://h" "a1"
        [("data: \x7b\"delta\":\"Hi\"\x7d\ndata: [DONE]\n").data] ⟨[], [msgA]⟩ :=
  c1_chunk_boundary_independence true "https://h" "a1" ⟨[], [msgA]⟩
    [("data: \x7b\"del").data, ("ta\":\"Hi\"\x7d\nda").data, ("ta: [DONE]\n").data]
    [("data: \x7b\"delta\":\"Hi\"\x7d\ndata: [DONE]\n").data] (by decide)

/-! ## C9 -/

theorem silenceRun_cons (st : Option Nat) (s : Nat × Rat) (rest : List (Nat × Rat)) :
    silenceRun st (s :: rest) =
      match silenceStep st s.1 s.2 with
      | none => .stopAt 0
      | some st' =>
        match silenceRun st' rest with
        | .stopAt k => .stopAt (k + 1)
        | .noStop f => .noStop f := rfl

theorem quietStart_append (pre : List (Nat × Rat)) (s : Nat × Rat) :
    quietStart (pre ++ [s]) = quietStepSpec (quietStart pre) s := by
  unfold quietStart
  rw [List.foldl_append]
  rfl

theorem foldl_quiet_pos (l : List (Nat × Rat)) :
    ∀ st : Option Nat, (∀ s ∈ l, 0 < s.1) → (∀ t, st = some t → 0 < t) →
      ∀ t, l.foldl quietStepSpec st = some t → 0 < t := by
  induction l with
  | nil => intro st _ hst t h; exact hst t h
  | cons s l ih =>
    intro st hl hst t h
    refine ih (quietStepSpec st s) (fun x hx => hl x (by simp [hx])) ?_ t h
    intro t' ht'
    unfold quietStepSpec at ht'
    by_cases hlow : s.2 < silenceThreshold
    · rw [if_pos hlow] at ht'
      cases hstv : st with
      | none =>
        rw [hstv] at ht'
        have : s.1 = t' := by injection ht'
        rw [← this]
        exact hl s (by simp)
      | some u =>
        rw [hstv] at ht'
        have : u = t' := by injection ht'
        rw [← this]
        exact hst u hstv
    · rw [if_neg hlow] at ht'
      exact absurd ht' (by simp)

theorem claimTrigger_out (samples : List (Nat × Rat)) (k : Nat)
    (h : samples.length ≤ k) : claimTrigger samples k = false := by
  unfold claimTrigger
  rw [List.getElem?_eq_none h]

theorem claimTrigger_seam (pre : List (Nat × Rat)) (s : Nat × Rat)
    (tail : List (Nat × Rat)) :
    claimTrigger (pre ++ s :: tail) pre.length =
      (decide (s.2 < silenceThreshold) &&
       decide (autoStopSilenceMs < s.1 - ((quietStart pre).getD s.1))) := by
  unfold claimTrigger
  have hidx : (pre ++ s :: tail)[pre.length]? = some s := by
    rw [List.getElem?_append_right (Nat.le_refl _)]
    simp
  rw [hidx]
  rw [List.take_left pre (s :: tail)]

theorem isFirstFrom_succ (P : Nat → Prop) (base : Nat) (hbase : ¬P base) (k : Nat) :
    IsFirstFrom P base k ↔ ∃ k', k = k' + 1 ∧ IsFirstFrom P (base + 1) k' := by
  constructor
  · rintro ⟨hP, hmin⟩
    cases k with
    | zero => exact absurd (by simpa using hP) hbase
    | succ k' =>
      refine ⟨k', rfl, ?_, ?_⟩
      · have harith : base + 1 + k' = base + (k' + 1) := by omega
        rw [harith]
        exact hP
      · intro j hj1 hj2
        exact hmin j (by omega) (by omega)
  · rintro ⟨k', rfl, hP, hmin⟩
    refine ⟨?_, ?_⟩
    · have harith : base + (k' + 1) = base + 1 + k' := by omega
      rw [harith]
      exact hP
    · intro j hj1 hj2
      by_cases hj : j = base
      · subst hj
        exact hbase
      · exact hmin j (by omega) (by omega)

theorem isFirstFrom_zero (P : Nat → Prop) (base : Nat) (hbase : P base) (k : Nat) :
    IsFirstFrom P base k ↔ k = 0 := by
  constructor
  · rintro ⟨_, hmin⟩
    by_contra hk
    exact hmin base (Nat.le_refl _) (by omega) hbase
  · rintro rfl
    exact ⟨by simpa using hbase, fun j h1 h2 => absurd (Nat.lt_of_le_of_lt h1 h2) (by omega)⟩

theorem silence_lift_iff (P : Nat → Prop) (base : Nat) (hbase : ¬P base)
    (res : SilenceOutcome)
    (hIH : ∀ k', res = .stopAt k' ↔ IsFirstFrom P (base + 1) k') (k : Nat) :
    (match res with
     | .stopAt k'' => SilenceOutcome.stopAt (k'' + 1)
     | .noStop f => SilenceOutcome.noStop f) = .stopAt k ↔ IsFirstFrom P base k := by
  cases res with
  | stopAt k'' =>
    rw [isFirstFrom_succ P base hbase k]
    constructor
    · intro h
      have hk : k = k'' + 1 := by
        cases h
        rfl
      exact ⟨k'', hk, (hIH k'').mp rfl⟩
    · rintro ⟨k', hk, hfirst⟩
      have he : SilenceOutcome.stopAt k'' = SilenceOutcome.stopAt k' := (hIH k').mpr hfirst
      have : k'' = k' := by injection he
      rw [hk, ← this]
  | noStop f =>
    constructor
    · intro h
      exact absurd h (by simp)
    · intro hfirst
      rw [isFirstFrom_succ P base hbase k] at hfirst
      obtain ⟨k', _, hf⟩ := hfirst
      exact absurd ((hIH k').mpr hf) (by simp)

theorem silence_go (rest : List (Nat × Rat)) :
    ∀ pre : List (Nat × Rat), (∀ s ∈ pre ++ rest, 0 < s.1) →
      ∀ k, silenceRun (quietStart pre) rest = .stopAt k ↔
        IsFirstFrom (fun j => claimTrigger (pre ++ rest) j = true) pre.length k := by
  induction rest with
  | nil =>
    intro pre _ k
    constructor
    · intro h
      exact absurd h (by simp [silenceRun])
    · rintro ⟨hP, _⟩
      rw [claimTrigger_out (pre ++ []) (pre.length + k) (by simp)] at hP
      exact absurd hP (by simp)
  | cons s rest' ih =>
    intro pre hpos k
    have hpos_pre : ∀ x ∈ pre, 0 < x.1 := fun x hx => hpos x (by simp [hx])
    have hs_pos : 0 < s.1 := hpos s (by simp)
    have hlist : pre ++ s :: rest' = (pre ++ [s]) ++ rest' := by simp
    have hseam := claimTrigger_seam pre s rest'
    have hposQ : ∀ t, quietStart pre = some t → 0 < t :=
      foldl_quiet_pos pre none hpos_pre (by simp)
    have hliftOf : ∀ st' : Option Nat, quietStart (pre ++ [s]) = st' →
        ∀ k', silenceRun st' rest' = .stopAt k' ↔
          IsFirstFrom (fun j => claimTrigger (pre ++ s :: rest') j = true)
            (pre.length + 1) k' := by
      intro st' hq' k'
      have hh := ih (pre ++ [s]) (by rw [← hlist]; exact hpos) k'
      rw [hq', ← hlist] at hh
      simpa using hh
    by_cases hlow : s.2 < silenceThreshold
    · cases hq : quietStart pre with
      | none =>
        have hstep : silenceStep none s.1 s.2 = some (some s.1) := by
          unfold silenceStep
          rw [if_pos hlow]
          simp [numTruthy]
        have hnotrig : claimTrigger (pre ++ s :: rest') pre.length = false := by
          rw [hseam, hq]
          simp [autoStopSilenceMs]
        have hq' : quietStart (pre ++ [s]) = some s.1 := by
          rw [quietStart_append]
          unfold quietStepSpec
          rw [if_pos hlow, hq]
        rw [silenceRun_cons, hstep]
        exact silence_lift_iff _ pre.length (by simp [hnotrig])
          (silenceRun (some s.1) rest') (hliftOf (some s.1) hq') k
      | some t =>
        have ht_pos : 0 < t := hposQ t hq
        have htruthy : numTruthy (some t) = true := by
          simp [numTruthy]
          omega
        by_cases hgt : autoStopSilenceMs < s.1 - t
        · have hstep : silenceStep (some t) s.1 s.2 = none := by
            unfold silenceStep
            rw [if_pos hlow]
            simp [htruthy, hgt]
          have htrig : claimTrigger (pre ++ s :: rest') pre.length = true := by
            rw [hseam, hq]
            simp [hlow, hgt]
          rw [silenceRun_cons, hstep]
          rw [isFirstFrom_zero _ pre.length (by simp [htrig]) k]
          constructor
          · intro h
            cases h
            rfl
          · rintro rfl
            rfl
        · have hstep : silenceStep (some t) s.1 s.2 = some (some t) := by
            unfold silenceStep
            rw [if_pos hlow]
            simp [htruthy, hgt]
          have hnotrig : claimTrigger (pre ++ s :: rest') pre.length = false := by
            rw [hseam, hq]
            simp [hgt]
          have hq' : quietStart (pre ++ [s]) = some t := by
            rw [quietStart_append]
            unfold quietStepSpec
            rw [if_pos hlow, hq]
          rw [silenceRun_cons, hstep]
          exact silence_lift_iff _ pre.length (by simp [hnotrig])
            (silenceRun (some t) rest') (hliftOf (some t) hq') k
    · have hstep : silenceStep (quietStart pre) s.1 s.2 = some none := by
        unfold silenceStep
        rw [if_neg hlow]
      have hnotrig : claimTrigger (pre ++ s :: rest') pre.length = false := by
        rw [hseam]
        simp [hlow]
      have hq' : quietStart (pre ++ [s]) = none := by
        rw [quietStart_append]
        unfold quietStepSpec
        rw [if_neg hlow]
      rw [silenceRun_cons, hstep]
      exact silence_lift_iff _ pre.length (by simp [hnotrig])
        (silenceRun none rest') (hliftOf none hq') k

/-- C9: over any finite sample sequence with positive clock readings,
an at-or-above-threshold sample always resets the tracked silence
state, and the detector auto-stops exactly at the first sample whose
continuous below-threshold run has lasted strictly longer than the
1200 ms quiet period; no sample after the stop is processed (the run
ends at the stop index by construction of silenceRun). -/
theorem c9_silence_detector (samples : List (Nat × Rat))
    (hpos : ∀ s ∈ samples, 0 < s.1) :
    (∀ (st : Option Nat) (now : Nat) (rms : Rat), silenceThreshold ≤ rms →
       silenceStep st now rms = some none) ∧
    (∀ k, silenceRun none samples = .stopAt k ↔
       (claimTrigger samples k = true ∧
        ∀ j, j < k → ¬(claimTrigger samples j = true))) := by
  constructor
  · intro st now rms h
    unfold silenceStep
    rw [if_neg (not_lt.mpr h)]
  · intro k
    have h := silence_go samples [] (by simpa using hpos) k
    simp only [quietStart, List.foldl_nil, List.nil_append, List.length_nil] at h
    rw [h]
    unfold IsFirstFrom
    constructor
    · rintro ⟨h1, h2⟩
      exact ⟨by simpa using h1, fun j hj => h2 j (Nat.zero_le j) (by omega)⟩
    · rintro ⟨h1, h2⟩
      exact ⟨by simpa using h1, fun j _ hj => h2 j (by omega)⟩

/-- Witness for C9: four samples, quiet except for a loud second
sample; the run restarts there and auto-stop fires at the fourth
sample (index 3), the first whose quiet run exceeds 1200 ms. -/
theorem c9_silence_detector_witness :
    silenceRun none
        [(10, mkRat 1 100), (900, mkRat 5 100), (1300, mkRat 1 100), (2600, mkRat 1 100)] =
      .stopAt 3 :=
  ((c9_silence_detector
      [(10, mkRat 1 100), (900, mkRat 5 100), (1300, mkRat 1 100), (2600, mkRat 1 100)]
      (by decide)).2 3).mpr ⟨by decide, by decide⟩

end FunAudio
